import Mathlib

/-!
Verification of the price-resolution engine of the redstone-btc-feusd
repository, as a shallow embedding in Lean 4.

Sources embedded:
  - src/prices/hl_spot_prices.py   (find_spot_pair_index, get_spot_mid)
  - src/prices/hyper_evm_prices.py (get_pair_mid_from_dexscreener)
  - src/prices/redstone_prices.py  (_normalize_rs_payload, _try_redstone_endpoint,
                                    fetch_redstone_prices)
  - src/compute/stable_fx.py       (resolve_stable_usd_factor)

Modelling conventions:
  - Python floats are modelled as rationals (ℚ); `float(s)` string parsing is
    modelled either by an abstract parameter `parse : String → Option ℚ`
    (none = ValueError) or, for concrete instances, by `parseDecimal` below.
  - Network calls are injected as function parameters: the venue metadata and
    order books live in an `Info` record, the DexScreener pool list and the
    RedStone endpoint responses are passed in explicitly.
  - Fallible Python functions (raise/except) become `Except err α`; a
    `try/except: continue` catch site becomes a `match` on the `Except`.
  - Python truthiness of optional lists/strings/dicts is modelled explicitly
    (`none` or an empty collection is falsy).
-/

/-- Model of Python `float(s)` on plain decimal literals: optional minus sign,
then digits with an optional fractional part.  `none` models `ValueError`.
The value is assembled with `mkRat` so that it evaluates by kernel reduction.
Used only to instantiate the abstract `parse` parameter on concrete inputs
where Python `float` agrees with this grammar. -/
def parseDecimal (s : String) : Option ℚ :=
  let cs := s.data
  let neg : Bool := cs.head? = some '-'
  let cs2 := if neg then cs.tail else cs
  let intPart := cs2.takeWhile Char.isDigit
  let rest := cs2.dropWhile Char.isDigit
  let digitsVal : List Char → Nat := fun ds => ds.foldl (fun acc c => acc * 10 + (c.toNat - 48)) 0
  let mk : Nat → Nat → Option ℚ := fun num den =>
    some (if neg then -mkRat num den else mkRat num den)
  match rest with
  | [] => if intPart.isEmpty then none else mk (digitsVal intPart) 1
  | '.' :: fr =>
    if fr.all Char.isDigit && !(intPart.isEmpty && fr.isEmpty) then
      mk (digitsVal intPart * 10 ^ fr.length + digitsVal fr) (10 ^ fr.length)
    else none
  | _ => none

/-- Python `str.lower()` on one ASCII character (token addresses here are
ASCII hex strings, where this agrees with Python's full Unicode lowering). -/
def lowerChar (c : Char) : Char :=
  if 'A' ≤ c ∧ c ≤ 'Z' then Char.ofNat (c.toNat + 32) else c

/-- Python `s.lower()`, character-wise over the string's characters. -/
def pyLower (s : String) : String :=
  String.mk (s.data.map lowerChar)

/-- Python `str.upper()` on one ASCII character. -/
def upperChar (c : Char) : Char :=
  if 'a' ≤ c ∧ c ≤ 'z' then Char.ofNat (c.toNat - 32) else c

/-- Python `s.upper()`, character-wise over the string's characters. -/
def pyUpper (s : String) : String :=
  String.mk (s.data.map upperChar)

/-- Python `s.strip()`: drop whitespace from both ends. -/
def pyStrip (s : String) : String :=
  String.mk (((s.data.dropWhile Char.isWhitespace).reverse.dropWhile
    Char.isWhitespace).reverse)

/-! ## Spot venue model (hl_spot_prices.py) -/

/-- One entry of `spot_meta["tokens"]`; both fields come from JSON via `.get`
and so may be absent. -/
structure SpotToken where
  name : Option String
  index : Option Int
deriving DecidableEq, Repr

/-- One entry of `spot_meta["universe"]`; all fields come from JSON via `.get`
and so may be absent. -/
structure UniEntry where
  baseTokenIndex : Option Int
  quoteTokenIndex : Option Int
  index : Option Int
deriving DecidableEq, Repr

/-- The venue metadata returned by `info.spot_meta()`. -/
structure SpotMeta where
  tokens : List SpotToken
  univ : List UniEntry
deriving DecidableEq, Repr

/-- One order-book level; `px` is the (parsed) price field, `sz` the size.
The spec's data model declares level prices to be decimals, so `px` is a
rational here rather than a raw string. -/
structure Level where
  px : ℚ
  sz : ℚ
deriving DecidableEq, Repr

/-- The raw l2Book response.  The code reads `levels`/`bids` for the bid side
and `levels_ask`/`asks` for the ask side, each of which may be absent. -/
structure OrderBook where
  levels : Option (List Level)
  bids : Option (List Level)
  levels_ask : Option (List Level)
  asks : Option (List Level)
deriving DecidableEq, Repr

/-- The `Info` client: venue metadata plus the order book returned for a given
asset id.  Both model the network responses observed by one resolution call. -/
structure Info where
  spot_meta : SpotMeta
  l2Book : Int → OrderBook

/-- Errors raised by the spot resolver, one constructor per raise site of
hl_spot_prices.py: `Token not in spot_meta` (UnknownToken),
`Spot pair not found` (PairNotFound), `No liquidity on book` (NoLiquidity). -/
inductive SpotErr where
  | UnknownToken
  | PairNotFound
  | NoLiquidity
deriving DecidableEq, Repr

/-- `_build_name_to_token_index`: Python dict built in list order, so a later
token with the same name overwrites an earlier one; tokens missing a name or
an index are skipped. -/
def build_name_to_token_index (tokens : List SpotToken) : String → Option Int :=
  tokens.foldl
    (fun m t =>
      match t.name, t.index with
      | some n, some i => fun s => if s = n then some i else m s
      | _, _ => m)
    (fun _ => none)

/-- The scan over `spot_meta["universe"]` inside `find_spot_pair_index`: the
first entry whose (baseTokenIndex, quoteTokenIndex) equals the given pair in
that exact order wins; if its own `index` field is missing the loop breaks and
the function raises (PairNotFound). -/
def find_pair_aux (bi qi : Int) : List UniEntry → Except SpotErr Int
  | [] => .error .PairNotFound
  | u :: rest =>
    if u.baseTokenIndex = some bi ∧ u.quoteTokenIndex = some qi then
      match u.index with
      | some i => .ok i
      | none => .error .PairNotFound
    else find_pair_aux bi qi rest

/-- `find_spot_pair_index(info, base, quote)`. -/
def find_spot_pair_index (sm : SpotMeta) (base quote : String) : Except SpotErr Int :=
  let n2i := build_name_to_token_index sm.tokens
  match n2i base, n2i quote with
  | some bi, some qi => find_pair_aux bi qi sm.univ
  | _, _ => .error .UnknownToken

/-- The venue offset `SPOT_ASSET_OFFSET`. -/
def SPOT_ASSET_OFFSET : Int := 10000

/-- Python `a or b` on two optional lists: a present non-empty list wins,
otherwise fall through (None and [] are falsy). -/
def pyOrList (a b : Option (List Level)) : Option (List Level) :=
  match a with
  | some l => if l.isEmpty then b else some l
  | none => b

/-- The bid side read by `get_spot_mid`: `ob.get("levels") or ob.get("bids") or []`. -/
def bookBids (ob : OrderBook) : List Level :=
  (pyOrList ob.levels ob.bids).getD []

/-- The ask side read by `get_spot_mid`: `ob.get("levels_ask") or ob.get("asks") or []`. -/
def bookAsks (ob : OrderBook) : List Level :=
  (pyOrList ob.levels_ask ob.asks).getD []

/-- `get_spot_mid(info, base, quote)`: locate the pair, fetch the book at
`SPOT_ASSET_OFFSET + pair_index`, and return `(bestBid + bestAsk) / 2`, raising
NoLiquidity when either side is empty. -/
def get_spot_mid (info : Info) (base quote : String) : Except SpotErr ℚ :=
  match find_spot_pair_index info.spot_meta base quote with
  | .error e => .error e
  | .ok pair_index =>
    let asset_id := SPOT_ASSET_OFFSET + pair_index
    let ob := info.l2Book asset_id
    match bookBids ob, bookAsks ob with
    | b :: _, a :: _ => .ok ((b.px + a.px) / 2)
    | _, _ => .error .NoLiquidity

/-! ## DexScreener model (hyper_evm_prices.py) -/

/-- One DexScreener pool from `data["pairs"]`.  `priceNative` and `price` are
raw JSON string fields (absent = `none`), `liquidityUsd` is the value of
`float((p.get("liquidity") or {}).get("usd", 0.0))` after its
try/except (so an unparseable liquidity is already 0 here). -/
structure DexPool where
  baseAddress : String
  quoteAddress : String
  priceNative : Option String
  price : Option String
  liquidityUsd : ℚ
deriving DecidableEq, Repr

/-- `price_str = p.get("priceNative") or p.get("price")`, with Python
truthiness folded in: a missing field or an empty string is falsy, and every
later use of `price_str` is guarded by its truthiness, so the falsy outcomes
are collapsed to `none`. -/
def DexPool.price_str (p : DexPool) : Option String :=
  match p.priceNative with
  | some s =>
    if s = "" then
      match p.price with
      | some t => if t = "" then none else some t
      | none => none
    else some s
  | none =>
    match p.price with
    | some t => if t = "" then none else some t
    | none => none

/-- The single raise site of `get_pair_mid_from_dexscreener`
(`No suitable DexScreener pool`). -/
inductive DexErr where
  | NoPoolFound
deriving DecidableEq, Repr

/-- The pool scan of `get_pair_mid_from_dexscreener`, carrying the running
fallback state `best_liq` / `best_price`.  Python calls `float(price_str)` in
up to three spots on the same string; since `float` is deterministic the
three calls are collapsed into one `match parse s`.  Order of checks per pool
is the source's: skip on falsy addresses, exact orientation, inverted
orientation (declining a zero price), then the best-liquidity fallback
update.  At the end of the scan the retained candidate string is parsed, and
the call raises NoPoolFound when that fails or no candidate was retained. -/
def dexGo (parse : String → Option ℚ) (tA tB : String) :
    List DexPool → ℚ → Option String → Except DexErr ℚ
  | [], _, bp =>
    match bp with
    | some s =>
      match parse s with
      | some v => .ok v
      | none => .error .NoPoolFound
    | none => .error .NoPoolFound
  | p :: rest, bl, bp =>
    let base := pyLower p.baseAddress
    let quote := pyLower p.quoteAddress
    if base = "" ∨ quote = "" then dexGo parse tA tB rest bl bp
    else
      match p.price_str with
      | none => dexGo parse tA tB rest bl bp
      | some s =>
        let cont :=
          if bl < p.liquidityUsd then dexGo parse tA tB rest p.liquidityUsd (some s)
          else dexGo parse tA tB rest bl bp
        match parse s with
        | some v =>
          if base = pyLower tA ∧ quote = pyLower tB then .ok v
          else if base = pyLower tB ∧ quote = pyLower tA then
            if v ≠ 0 then .ok (1 / v) else cont
          else cont
        | none => cont

/-- `get_pair_mid_from_dexscreener(tokenA, tokenB)`, with the pool list
returned by `_load_pairs_for_token(tokenA)` passed in explicitly and the
initial fallback state `best_liq = -1.0`, `best_price = None`. -/
def get_pair_mid_from_dexscreener (parse : String → Option ℚ) (tokenA tokenB : String)
    (pairs : List DexPool) : Except DexErr ℚ :=
  dexGo parse tokenA tokenB pairs (-1) none

/-- A pool at which the scan of `get_pair_mid_from_dexscreener` returns: its
addresses are truthy, its price string is present and parses, and it matches
the exact orientation, or the inverted orientation with a nonzero price. -/
def pool_returns (parse : String → Option ℚ) (tA tB : String) (p : DexPool) : Bool :=
  let base := pyLower p.baseAddress
  let quote := pyLower p.quoteAddress
  if base = "" ∨ quote = "" then false
  else
    match p.price_str with
    | none => false
    | some s =>
      match parse s with
      | none => false
      | some v =>
        (base = pyLower tA ∧ quote = pyLower tB) ∨
          (base = pyLower tB ∧ quote = pyLower tA ∧ v ≠ 0)

/-- A pool that updates the fallback candidate when the running best
liquidity is `bl`: truthy addresses, a present price string, and liquidity
strictly above `bl`. -/
def pool_tracksAbove (bl : ℚ) (p : DexPool) : Bool :=
  ¬pyLower p.baseAddress = "" ∧ ¬pyLower p.quoteAddress = "" ∧
    p.price_str.isSome ∧ bl < p.liquidityUsd

/-- A pool eligible to seed the fallback candidate against the initial
`best_liq = -1.0`: truthy addresses, a present price string, and liquidity
above the sentinel. -/
def pool_tracks (p : DexPool) : Bool :=
  pool_tracksAbove (-1) p

/-! ## Stable-factor orchestrator model (stable_fx.py) -/

/-- Tier A of `resolve_stable_usd_factor`: the loop
`for q in preferred_quotes: try: return get_spot_mid(info, symbol, q)` with
every exception swallowed. -/
def spot_tier (info : Info) (symbol : String) : List String → Option ℚ
  | [] => none
  | q :: rest =>
    match get_spot_mid info symbol q with
    | .ok v => some v
    | .error _ => spot_tier info symbol rest

/-- `resolve_stable_usd_factor(info, symbol, preferred_quotes=...,
evm_addresses=..., evm_usd_reference=...)`.  `pairsFor` injects
`_load_pairs_for_token`; `evm_addresses` is an optional association list
(Python `None` = `none`, dict truthiness = non-emptiness, `in` = lookup
success).  Tier A tries each preferred quote on the spot venue, tier B tries
DexScreener when both addresses are known, tier C is the `1.0` peg. -/
def resolve_stable_usd_factor (info : Info) (pairsFor : String → List DexPool)
    (parse : String → Option ℚ) (symbol : String) (preferred_quotes : List String)
    (evm_addresses : Option (List (String × String))) (evm_usd_reference : String) : ℚ :=
  match spot_tier info symbol preferred_quotes with
  | some v => v
  | none =>
    match evm_addresses with
    | none => 1
    | some m =>
      if m.isEmpty then 1
      else
        match m.lookup symbol, m.lookup evm_usd_reference with
        | some aSym, some aRef =>
          match get_pair_mid_from_dexscreener parse aSym aRef (pairsFor aSym) with
          | .ok v => v
          | .error _ => 1
        | _, _ => 1

/-- What Python iteration over a `str` yields: its characters as one-character
strings, in order.  The default `preferred_quotes=("FEUSD")` of
`resolve_stable_usd_factor` is the bare string `"FEUSD"` (no trailing comma,
hence not a tuple), and the tier-A loop iterates it with this rule. -/
def pyIterString (s : String) : List String :=
  s.data.map fun c => String.mk [c]

/-- The effective default value of the `preferred_quotes` parameter. -/
def default_preferred_quotes : List String :=
  pyIterString "FEUSD"

/-- `resolve_stable_usd_factor` as called with `preferred_quotes` left at its
default. -/
def resolve_stable_usd_factor_default (info : Info) (pairsFor : String → List DexPool)
    (parse : String → Option ℚ) (symbol : String)
    (evm_addresses : Option (List (String × String))) (evm_usd_reference : String) : ℚ :=
  resolve_stable_usd_factor info pairsFor parse symbol default_preferred_quotes
    evm_addresses evm_usd_reference

/-! ## RedStone fetcher model (redstone_prices.py) -/

/-- One price record after JSON decoding, as consumed by the loops of
`_try_redstone_endpoint`.  `symbol = none` models a missing "symbol" key
(`str(item["symbol"])` raises KeyError, `item.get("symbol","")` yields "").
`value = none` models a missing "value" key; `value = some none` a present
value on which `float` raises; `value = some (some v)` a numeric value. -/
structure RsItem where
  symbol : Option String
  value : Option (Option ℚ)
  timestamp : Option Int
  provider : Option String
deriving DecidableEq, Repr

/-- One value of the symbol-keyed dict shape accepted by
`_normalize_rs_payload`; `value = none` again models an absent "value" key. -/
structure RsDictObj where
  value : Option (Option ℚ)
  timestamp : Option Int
  provider : Option String
deriving DecidableEq, Repr

/-- The decoded response body handed to `_normalize_rs_payload`: already a
list, a dict keyed by symbol, or residual text.  A string body that is itself
JSON is re-parsed by the source before either shape applies; such bodies are
modelled directly as the `plist`/`pdict` they decode to, so `ptext` models
only the bodies on which that re-parse fails. -/
inductive RsPayload where
  | plist (items : List RsItem)
  | pdict (entries : List (String × RsDictObj))
  | ptext (s : String)
deriving DecidableEq, Repr

/-- `_normalize_rs_payload`: a list passes through; a dict is flattened to the
entries that carry a "value" key (provider defaulted), raising when none do;
anything else raises `Unexpected RedStone payload type`. -/
def normalize_rs_payload : RsPayload → Except String (List RsItem)
  | .plist items => .ok items
  | .pdict entries =>
    let out := entries.filterMap fun e =>
      match e.2.value with
      | some v =>
        some { symbol := some e.1, value := some v, timestamp := e.2.timestamp,
               provider := some (e.2.provider.getD "redstone") }
      | none => none
    if out.isEmpty then .error "Unexpected RedStone payload type" else .ok out
  | .ptext _ => .error "Unexpected RedStone payload type"

/-- One entry of the mapping returned by the fetcher. -/
structure RsEntry where
  value : ℚ
  timestamp : Option Int
  provider : String
deriving DecidableEq, Repr

/-- Python dict insertion on an insertion-ordered association list: an
existing key is overwritten in place, a new key is appended. -/
def dictInsert (m : List (String × RsEntry)) (k : String) (v : RsEntry) :
    List (String × RsEntry) :=
  if (m.lookup k).isSome then m.map fun kv => if kv.1 = k then (k, v) else kv
  else m ++ [(k, v)]

/-- `wanted = [s.strip().upper() for s in symbols if s.strip()]`. -/
def wantedOf (symbols : List String) : List String :=
  symbols.filterMap fun s => if pyStrip s = "" then none else some (pyUpper (pyStrip s))

/-- One step of the batch-path accumulation of `_try_redstone_endpoint`:
uppercase the item's symbol and store its numeric value, skipping items whose
symbol is missing or whose value is missing or non-numeric. -/
def batch_step (out : List (String × RsEntry)) (item : RsItem) : List (String × RsEntry) :=
  match item.symbol, item.value with
  | some s, some (some v) =>
    dictInsert out (pyUpper s)
      { value := v, timestamp := item.timestamp,
        provider := item.provider.getD "redstone" }
  | _, _ => out

/-- The batch-path accumulation of `_try_redstone_endpoint` over all
normalized items, with no membership check against the requested symbols. -/
def batch_collect (items : List RsItem) : List (String × RsEntry) :=
  items.foldl batch_step []

/-- The per-symbol fallback's inner loop: first normalized item whose
(defaulted, uppercased) symbol equals `sym` and whose value is numeric; an
item that matches but whose `float(item["value"])` raises is skipped and the
scan continues. -/
def first_match (sym : String) : List RsItem → Option RsEntry
  | [] => none
  | item :: rest =>
    if pyUpper (item.symbol.getD "") ≠ sym then first_match sym rest
    else
      match item.value with
      | some (some v) =>
        some { value := v, timestamp := item.timestamp,
               provider := item.provider.getD "redstone" }
      | _ => first_match sym rest

/-- `_try_redstone_endpoint(endpoint, symbols, timeout)`: the endpoint's
behaviour is injected as the batch response `batch` (HTTP status and decoded
payload) and the per-symbol responses `perSym`.  Empty `wanted` returns the
empty dict; a 200 batch whose payload normalizes to a non-empty collection is
returned as is; otherwise each wanted symbol is queried individually and the
accumulated dict is returned, raising `No usable data` when it stays empty. -/
def try_redstone_endpoint (batch : Nat × RsPayload) (perSym : String → Nat × RsPayload)
    (symbols : List String) : Except String (List (String × RsEntry)) :=
  let wanted := wantedOf symbols
  if wanted.isEmpty then .ok []
  else
    let batchResult : Option (List (String × RsEntry)) :=
      if batch.1 = 200 then
        match normalize_rs_payload batch.2 with
        | .ok items =>
          let out := batch_collect items
          if out.isEmpty then none else some out
        | .error _ => none
      else none
    match batchResult with
    | some out => .ok out
    | none =>
      let out := wanted.foldl
        (fun out sym =>
          let resp := perSym sym
          if resp.1 ≠ 200 then out
          else
            match normalize_rs_payload resp.2 with
            | .error _ => out
            | .ok items =>
              match first_match sym items with
              | some entry => dictInsert out sym entry
              | none => out)
        []
      if out.isEmpty then .error "No usable data from endpoint" else .ok out

/-- Observable events of one `fetch_redstone_prices` call: a call to
`_try_redstone_endpoint` during a given attempt, or a `time.sleep` of the
given duration in seconds. -/
inductive FetchEvent where
  | tryE (attempt : Nat) (endpoint : String)
  | sleepE (d : ℚ)
deriving DecidableEq, Repr

/-- The inner `for ep in eps` loop of one retry attempt, emitting the trace of
endpoint calls.  `tryEp` injects `_try_redstone_endpoint`, indexed by the
attempt number because each attempt issues fresh network calls.  A non-empty
result returns immediately; an empty result records `No data from <ep>` as the
last error; an exception records itself. -/
def attempt_endpoints (tryEp : Nat → String → Except String (List (String × RsEntry)))
    (a : Nat) : List String → Option String →
    List FetchEvent × Except (Option String) (List (String × RsEntry))
  | [], le => ([], .error le)
  | ep :: rest, le =>
    match tryEp a ep with
    | .ok r =>
      if r.isEmpty then
        let next := attempt_endpoints tryEp a rest (some ("No data from " ++ ep))
        (FetchEvent.tryE a ep :: next.1, next.2)
      else ([FetchEvent.tryE a ep], .ok r)
    | .error e =>
      let next := attempt_endpoints tryEp a rest (some e)
      (FetchEvent.tryE a ep :: next.1, next.2)

/-- The last-error threading of one attempt's endpoint scan, as a fold
(what `last_err` holds once the attempt finishes without returning). -/
def lastErrScan (tryEp : Nat → String → Except String (List (String × RsEntry)))
    (a : Nat) (eps : List String) (le : Option String) : Option String :=
  eps.foldl
    (fun acc ep =>
      match tryEp a ep with
      | .error e => some e
      | .ok r => if r.isEmpty then some ("No data from " ++ ep) else acc)
    le

/-- The `while attempt < retries` loop of `fetch_redstone_prices`, recursing
on the remaining attempt budget.  After each failed attempt the code
increments `attempt` and sleeps `retry_base_delay * 2 ** (attempt - 1)`
seconds — i.e. `base_delay * 2 ^ a` for the 0-indexed attempt `a` just
finished — including after the final attempt, before raising. -/
def fetch_go (tryEp : Nat → String → Except String (List (String × RsEntry)))
    (eps : List String) (base_delay : ℚ) :
    Nat → Nat → Option String →
    List FetchEvent × Except (Option String) (List (String × RsEntry))
  | _, 0, le => ([], .error le)
  | a, rem + 1, le =>
    let att := attempt_endpoints tryEp a eps le
    match att.2 with
    | .ok r => (att.1, .ok r)
    | .error le2 =>
      let d := base_delay * 2 ^ a
      let next := fetch_go tryEp eps base_delay (a + 1) rem le2
      (att.1 ++ FetchEvent.sleepE d :: next.1, next.2)

/-- `fetch_redstone_prices(symbols, endpoints=eps, retries=retries,
retry_base_delay=base_delay)`: the retry loop started at attempt 0 with no
last error.  The first component is the event trace, the second the returned
mapping or the terminal `Failed to fetch RedStone prices after N attempts`
error carrying `last_err`. -/
def fetch_redstone_prices (tryEp : Nat → String → Except String (List (String × RsEntry)))
    (eps : List String) (retries : Nat) (base_delay : ℚ) :
    List FetchEvent × Except (Option String) (List (String × RsEntry)) :=
  fetch_go tryEp eps base_delay 0 retries none

/-! ## Generic instances and helper lemmas -/

instance {e a : Type _} [DecidableEq e] [DecidableEq a] : DecidableEq (Except e a) := fun
  | .ok x, .ok y =>
    if h : x = y then .isTrue (by rw [h])
    else .isFalse (by intro hh; cases hh; exact h rfl)
  | .ok _, .error _ => .isFalse (by intro hh; cases hh)
  | .error _, .ok _ => .isFalse (by intro hh; cases hh)
  | .error x, .error y =>
    if h : x = y then .isTrue (by rw [h])
    else .isFalse (by intro hh; cases hh; exact h rfl)

/-- A universe scan over entries that never match the wanted (base, quote)
index pair ends in PairNotFound. -/
lemma find_pair_aux_not_found (bi qi : Int) (l : List UniEntry)
    (h : ∀ u ∈ l, ¬(u.baseTokenIndex = some bi ∧ u.quoteTokenIndex = some qi)) :
    find_pair_aux bi qi l = .error .PairNotFound := by
  induction l with
  | nil => rfl
  | cons u rest ih =>
    rw [find_pair_aux, if_neg (h u (List.mem_cons_self u rest))]
    exact ih fun w hw => h w (List.mem_cons_of_mem u hw)

/-- When every preferred quote's spot resolution raises, tier A yields nothing. -/
lemma spot_tier_all_fail (info : Info) (symbol : String) (l : List String)
    (h : ∀ q ∈ l, ∃ e, get_spot_mid info symbol q = .error e) :
    spot_tier info symbol l = none := by
  induction l with
  | nil => rfl
  | cons q rest ih =>
    obtain ⟨e, he⟩ := h q (List.mem_cons_self q rest)
    rw [spot_tier, he]
    exact ih fun w hw => h w (List.mem_cons_of_mem q hw)

/-- C2: for every (base, quote) whose pair is found in the catalog, if either
the bid or the ask sequence of the fetched order book is empty then
`get_spot_mid` fails with NoLiquidity, and otherwise it returns exactly
`(bestBid + bestAsk) / 2` where best bid and best ask are the price fields of
the first elements of the best-first bid and ask sequences. -/
theorem get_spot_mid_mid_price (info : Info) (base quote : String) (idx : Int)
    (hpair : find_spot_pair_index info.spot_meta base quote = .ok idx) :
    (bookBids (info.l2Book (SPOT_ASSET_OFFSET + idx)) = [] ∨
        bookAsks (info.l2Book (SPOT_ASSET_OFFSET + idx)) = [] →
      get_spot_mid info base quote = .error SpotErr.NoLiquidity) ∧
    (∀ b tb a ta, bookBids (info.l2Book (SPOT_ASSET_OFFSET + idx)) = b :: tb →
      bookAsks (info.l2Book (SPOT_ASSET_OFFSET + idx)) = a :: ta →
      get_spot_mid info base quote = .ok ((b.px + a.px) / 2)) := by
  have hgoal : get_spot_mid info base quote =
      (match bookBids (info.l2Book (SPOT_ASSET_OFFSET + idx)),
             bookAsks (info.l2Book (SPOT_ASSET_OFFSET + idx)) with
       | b :: _, a :: _ => Except.ok ((b.px + a.px) / 2)
       | _, _ => Except.error SpotErr.NoLiquidity) := by
    unfold get_spot_mid
    rw [hpair]
  constructor
  · intro h
    rcases h with h | h
    · rw [hgoal, h]
    · rw [hgoal, h]
      cases bookBids (info.l2Book (SPOT_ASSET_OFFSET + idx)) <;> rfl
  · intro b tb a ta hb ha
    rw [hgoal, hb, ha]

/-- C6: pair lookup is exact-order only.  When base and quote are both in the
token catalog, the universe holds an entry for (quoteIndex, baseIndex) but
none for (baseIndex, quoteIndex), `get_spot_mid` fails with PairNotFound: the
reversed entry is never used. -/
theorem spot_pair_exact_order (info : Info) (base quote : String) (bi qi : Int)
    (hb : build_name_to_token_index info.spot_meta.tokens base = some bi)
    (hq : build_name_to_token_index info.spot_meta.tokens quote = some qi)
    (hrev : ∃ u ∈ info.spot_meta.univ,
      u.baseTokenIndex = some qi ∧ u.quoteTokenIndex = some bi)
    (hfwd : ∀ u ∈ info.spot_meta.univ,
      ¬(u.baseTokenIndex = some bi ∧ u.quoteTokenIndex = some qi)) :
    get_spot_mid info base quote = .error SpotErr.PairNotFound := by
  have hfind : find_spot_pair_index info.spot_meta base quote = .error .PairNotFound := by
    unfold find_spot_pair_index
    dsimp only
    rw [hb, hq]
    exact find_pair_aux_not_found bi qi info.spot_meta.univ hfwd
  unfold get_spot_mid
  rw [hfind]

/-- C8: strict tier priority with return on first success.  When the spot mid
for the first preferred quote succeeds with `v`, the resolver returns `v`,
for every possible remaining quote list and every possible DEX backend — so
neither the remaining quotes nor the DEX aggregator influence the call. -/
theorem resolve_priority_short_circuit (info : Info) (symbol q0 : String) (v : ℚ)
    (h : get_spot_mid info symbol q0 = .ok v) :
    ∀ (rest : List String) (pairsFor : String → List DexPool)
      (parse : String → Option ℚ) (evm : Option (List (String × String))) (ref : String),
      resolve_stable_usd_factor info pairsFor parse symbol (q0 :: rest) evm ref = v := by
  intro rest pairsFor parse evm ref
  unfold resolve_stable_usd_factor spot_tier
  rw [h]

/-- C9: the default `preferred_quotes` of `resolve_stable_usd_factor` is the
bare string "FEUSD", which the tier-A loop iterates character-wise, so the
attempted quotes are exactly "F", "E", "U", "S", "D" in order, the quote
"FEUSD" itself is never among them, and the default call is the general call
on that five-element list. -/
theorem default_quotes_string_iteration :
    default_preferred_quotes = ["F", "E", "U", "S", "D"] ∧
    "FEUSD" ∉ default_preferred_quotes ∧
    ∀ (info : Info) (pairsFor : String → List DexPool) (parse : String → Option ℚ)
      (symbol : String) (evm : Option (List (String × String))) (ref : String),
      resolve_stable_usd_factor_default info pairsFor parse symbol evm ref =
        resolve_stable_usd_factor info pairsFor parse symbol ["F", "E", "U", "S", "D"]
          evm ref := by
  have hlist : default_preferred_quotes = ["F", "E", "U", "S", "D"] := by decide
  refine ⟨hlist, by decide, fun info pairsFor parse symbol evm ref => ?_⟩
  unfold resolve_stable_usd_factor_default
  rw [hlist]

/-- C1: the resolver is a total function of its inputs (the embedding returns
a plain rational, mirroring the source's catch-all handlers around both
tiers), and when the spot tier fails for every preferred quote while the DEX
tier is unavailable (no address table, an empty one, or a missing address) or
itself fails, the result is exactly the peg 1.0. -/
theorem resolve_total_fallback (info : Info) (pairsFor : String → List DexPool)
    (parse : String → Option ℚ) (symbol : String) (preferred_quotes : List String)
    (evm : Option (List (String × String))) (ref : String)
    (hspot : ∀ q ∈ preferred_quotes, ∃ e, get_spot_mid info symbol q = .error e)
    (hdex : evm = none ∨
      (∃ m, evm = some m ∧
        (m.isEmpty ∨ m.lookup symbol = none ∨ m.lookup ref = none)) ∨
      (∃ m aSym aRef e, evm = some m ∧ m.lookup symbol = some aSym ∧
        m.lookup ref = some aRef ∧
        get_pair_mid_from_dexscreener parse aSym aRef (pairsFor aSym) = .error e)) :
    resolve_stable_usd_factor info pairsFor parse symbol preferred_quotes evm ref = 1 := by
  unfold resolve_stable_usd_factor
  rw [spot_tier_all_fail info symbol preferred_quotes hspot]
  rcases hdex with h | ⟨m, hm, hcase⟩ | ⟨m, aSym, aRef, e, hm, hs, hr, hfail⟩
  · rw [h]
  · rw [hm]
    dsimp only
    rcases hcase with h | h | h
    · rw [if_pos h]
    · cases he : m.isEmpty with
      | true => rfl
      | false => rw [if_neg (by simp), h]
    · cases he : m.isEmpty with
      | true => rfl
      | false =>
        rw [if_neg (by simp), h]
        cases m.lookup symbol <;> rfl
  · rw [hm]
    dsimp only
    have hne : m.isEmpty = false := by
      cases m with
      | nil => simp at hs
      | cons a l => rfl
    rw [if_neg (by simp [hne]), hs, hr]
    dsimp only
    rw [hfail]

/-- Concrete venue fixture: FEUSD/USDT0 is pair 7 and its book has best bid 1
and best ask 3/2. -/
def infoW : Info where
  spot_meta :=
    { tokens := [{ name := some "FEUSD", index := some 1 },
                 { name := some "USDT0", index := some 2 }],
      univ := [{ baseTokenIndex := some 1, quoteTokenIndex := some 2, index := some 7 }] }
  l2Book := fun a =>
    if a = 10007 then
      { levels := some [{ px := 1, sz := 1 }], bids := none,
        levels_ask := some [{ px := 2, sz := 1 }], asks := none }
    else { levels := none, bids := none, levels_ask := none, asks := none }

theorem get_spot_mid_mid_price_witness :
    get_spot_mid infoW "FEUSD" "USDT0" = .ok ((1 + 2) / 2) :=
  (get_spot_mid_mid_price infoW "FEUSD" "USDT0" 7 (by decide)).2
    { px := 1, sz := 1 } [] { px := 2, sz := 1 } [] (by decide) (by decide)

/-- Concrete venue fixture: only the reversed pair BBB/AAA exists. -/
def infoRev : Info where
  spot_meta :=
    { tokens := [{ name := some "AAA", index := some 1 },
                 { name := some "BBB", index := some 2 }],
      univ := [{ baseTokenIndex := some 2, quoteTokenIndex := some 1, index := some 3 }] }
  l2Book := fun _ => { levels := none, bids := none, levels_ask := none, asks := none }

theorem spot_pair_exact_order_witness :
    get_spot_mid infoRev "AAA" "BBB" = .error SpotErr.PairNotFound :=
  spot_pair_exact_order infoRev "AAA" "BBB" 1 2 (by decide) (by decide) (by decide)
    (by decide)

theorem resolve_priority_short_circuit_witness :
    resolve_stable_usd_factor infoW (fun _ => []) parseDecimal "FEUSD" ["USDT0", "ZZZ"]
      none "USDC" = (1 + 2) / 2 :=
  resolve_priority_short_circuit infoW "FEUSD" "USDT0" ((1 + 2) / 2) (by rfl)
    ["ZZZ"] (fun _ => []) parseDecimal none "USDC"

/-- Concrete address table for the total-fallback witness. -/
def mW : List (String × String) := [("SYM", "0xs"), ("USDC", "0xc")]

theorem resolve_total_fallback_witness :
    resolve_stable_usd_factor infoW (fun _ => []) parseDecimal "SYM" ["USDT0"]
      (some mW) "USDC" = 1 :=
  resolve_total_fallback infoW (fun _ => []) parseDecimal "SYM" ["USDT0"] (some mW) "USDC"
    (by
      intro q hq
      simp only [List.mem_singleton] at hq
      subst hq
      exact ⟨SpotErr.UnknownToken, by decide⟩)
    (Or.inr (Or.inr ⟨mW, "0xs", "0xc", DexErr.NoPoolFound, rfl, by decide, by decide,
      by decide⟩))

/-- A pool that neither returns nor improves the fallback candidate leaves the
scan state unchanged. -/
lemma dexGo_cons_no_step (parse : String → Option ℚ) (tA tB : String) (p : DexPool)
    (rest : List DexPool) (bl : ℚ) (bp : Option String)
    (h1 : pool_returns parse tA tB p = false) (h2 : pool_tracksAbove bl p = false) :
    dexGo parse tA tB (p :: rest) bl bp = dexGo parse tA tB rest bl bp := by
  by_cases hskip : pyLower p.baseAddress = "" ∨ pyLower p.quoteAddress = ""
  · simp only [dexGo]
    rw [if_pos hskip]
  · have hnand := not_or.mp hskip
    cases hps : p.price_str with
    | none =>
      simp only [dexGo, hps]
      rw [if_neg hskip]
    | some s =>
      have hliq : ¬bl < p.liquidityUsd := by
        simp only [pool_tracksAbove, decide_eq_false_iff_not] at h2
        intro hlt
        exact h2 ⟨hnand.1, hnand.2, by simp [hps], hlt⟩
      cases hv : parse s with
      | none =>
        simp only [dexGo, hps, hv]
        rw [if_neg hskip, if_neg hliq]
      | some v =>
        simp only [pool_returns, hps, hv] at h1
        rw [if_neg hskip] at h1
        simp only [decide_eq_false_iff_not] at h1
        simp only [dexGo, hps, hv]
        rw [if_neg hskip]
        by_cases hex : pyLower p.baseAddress = pyLower tA ∧ pyLower p.quoteAddress = pyLower tB
        · exact absurd (Or.inl hex) h1
        · rw [if_neg hex]
          by_cases hinv : pyLower p.baseAddress = pyLower tB ∧ pyLower p.quoteAddress = pyLower tA
          · have hz : v = 0 := by
              by_contra hz
              exact h1 (Or.inr ⟨hinv.1, hinv.2, hz⟩)
            rw [if_pos hinv, if_neg (by simp [hz]), if_neg hliq]
          · rw [if_neg hinv, if_neg hliq]

/-- A non-returning pool whose liquidity beats the running best replaces the
fallback candidate with its own price string. -/
lemma dexGo_cons_track (parse : String → Option ℚ) (tA tB : String) (p : DexPool)
    (rest : List DexPool) (bl : ℚ) (bp : Option String) (s : String)
    (h1 : pool_returns parse tA tB p = false) (hs : p.price_str = some s)
    (h2 : pool_tracksAbove bl p = true) :
    dexGo parse tA tB (p :: rest) bl bp =
      dexGo parse tA tB rest p.liquidityUsd (some s) := by
  simp only [pool_tracksAbove, decide_eq_true_eq] at h2
  obtain ⟨hA, hB, _, hlt⟩ := h2
  have hskip : ¬(pyLower p.baseAddress = "" ∨ pyLower p.quoteAddress = "") :=
    not_or.mpr ⟨hA, hB⟩
  cases hv : parse s with
  | none =>
    simp only [dexGo, hs, hv]
    rw [if_neg hskip, if_pos hlt]
  | some v =>
    simp only [pool_returns, hs, hv] at h1
    rw [if_neg hskip] at h1
    simp only [decide_eq_false_iff_not] at h1
    simp only [dexGo, hs, hv]
    rw [if_neg hskip]
    by_cases hex : pyLower p.baseAddress = pyLower tA ∧ pyLower p.quoteAddress = pyLower tB
    · exact absurd (Or.inl hex) h1
    · rw [if_neg hex]
      by_cases hinv : pyLower p.baseAddress = pyLower tB ∧ pyLower p.quoteAddress = pyLower tA
      · have hz : v = 0 := by
          by_contra hz
          exact h1 (Or.inr ⟨hinv.1, hinv.2, hz⟩)
        rw [if_pos hinv, if_neg (by simp [hz]), if_pos hlt]
      · rw [if_neg hinv, if_pos hlt]

/-- A reached pool in the exact orientation with a parseable price returns it. -/
lemma dexGo_cons_exact (parse : String → Option ℚ) (tA tB : String) (p : DexPool)
    (rest : List DexPool) (bl : ℚ) (bp : Option String) (s : String) (v : ℚ)
    (hskip : ¬(pyLower p.baseAddress = "" ∨ pyLower p.quoteAddress = ""))
    (hs : p.price_str = some s) (hv : parse s = some v)
    (hex : pyLower p.baseAddress = pyLower tA ∧ pyLower p.quoteAddress = pyLower tB) :
    dexGo parse tA tB (p :: rest) bl bp = .ok v := by
  simp only [dexGo, hs, hv]
  rw [if_neg hskip, if_pos hex]

/-- A reached pool in the inverted orientation (and not the exact one) with a
nonzero parseable price returns its reciprocal. -/
lemma dexGo_cons_inverted (parse : String → Option ℚ) (tA tB : String) (p : DexPool)
    (rest : List DexPool) (bl : ℚ) (bp : Option String) (s : String) (v : ℚ)
    (hskip : ¬(pyLower p.baseAddress = "" ∨ pyLower p.quoteAddress = ""))
    (hs : p.price_str = some s) (hv : parse s = some v)
    (hnex : ¬(pyLower p.baseAddress = pyLower tA ∧ pyLower p.quoteAddress = pyLower tB))
    (hinv : pyLower p.baseAddress = pyLower tB ∧ pyLower p.quoteAddress = pyLower tA)
    (hnz : v ≠ 0) :
    dexGo parse tA tB (p :: rest) bl bp = .ok (1 / v) := by
  simp only [dexGo, hs, hv]
  rw [if_neg hskip, if_neg hnex, if_pos hinv, if_pos hnz]

/-- A returning pool makes the scan succeed at once (with some value). -/
lemma dexGo_cons_returns_ok (parse : String → Option ℚ) (tA tB : String) (p : DexPool)
    (rest : List DexPool) (bl : ℚ) (bp : Option String)
    (h : pool_returns parse tA tB p = true) :
    ∃ v, dexGo parse tA tB (p :: rest) bl bp = .ok v := by
  simp only [pool_returns] at h
  by_cases hskip : pyLower p.baseAddress = "" ∨ pyLower p.quoteAddress = ""
  · rw [if_pos hskip] at h
    simp at h
  · rw [if_neg hskip] at h
    cases hps : p.price_str with
    | none => simp only [hps] at h; simp at h
    | some s =>
      simp only [hps] at h
      cases hv : parse s with
      | none => simp only [hv] at h; simp at h
      | some v =>
        simp only [hv, decide_eq_true_eq] at h
        by_cases hex : pyLower p.baseAddress = pyLower tA ∧ pyLower p.quoteAddress = pyLower tB
        · exact ⟨v, dexGo_cons_exact parse tA tB p rest bl bp s v hskip hps hv hex⟩
        · rcases h with hex2 | ⟨hi1, hi2, hnz⟩
          · exact absurd hex2 hex
          · exact ⟨1 / v,
              dexGo_cons_inverted parse tA tB p rest bl bp s v hskip hps hv hex ⟨hi1, hi2⟩ hnz⟩

/-- Once a parseable fallback candidate is retained and every later present
price string is parseable, the scan can no longer fail. -/
lemma dexGo_ok_of_candidate (parse : String → Option ℚ) (tA tB : String) :
    ∀ (pairs : List DexPool) (bl : ℚ) (s0 : String),
      (∀ p ∈ pairs, ∀ s, p.price_str = some s → (parse s).isSome) →
      (parse s0).isSome →
      ∃ v, dexGo parse tA tB pairs bl (some s0) = .ok v := by
  intro pairs
  induction pairs with
  | nil =>
    intro bl s0 _ hs0
    obtain ⟨v, hv⟩ := Option.isSome_iff_exists.mp hs0
    exact ⟨v, by simp [dexGo, hv]⟩
  | cons p rest ih =>
    intro bl s0 hp hs0
    have hrest : ∀ q ∈ rest, ∀ s, q.price_str = some s → (parse s).isSome :=
      fun q hq => hp q (List.mem_cons_of_mem p hq)
    by_cases hr : pool_returns parse tA tB p = true
    · exact dexGo_cons_returns_ok parse tA tB p rest bl (some s0) hr
    · have hr2 : pool_returns parse tA tB p = false := by simpa using hr
      by_cases ht : pool_tracksAbove bl p = true
      · have hsome : p.price_str.isSome := by
          simp only [pool_tracksAbove, decide_eq_true_eq] at ht
          exact ht.2.2.1
        obtain ⟨s, hs⟩ := Option.isSome_iff_exists.mp hsome
        rw [dexGo_cons_track parse tA tB p rest bl (some s0) s hr2 hs ht]
        exact ih p.liquidityUsd s hrest (hp p (List.mem_cons_self p rest) s hs)
      · rw [dexGo_cons_no_step parse tA tB p rest bl (some s0) hr2 (by simpa using ht)]
        exact ih bl s0 hrest hs0

/-- With every present price string parseable and no candidate retained yet,
the scan fails with NoPoolFound exactly when no pool returns and no pool can
seed the candidate against the running best liquidity. -/
lemma dexGo_error_iff (parse : String → Option ℚ) (tA tB : String) :
    ∀ (pairs : List DexPool) (bl : ℚ),
      (∀ p ∈ pairs, ∀ s, p.price_str = some s → (parse s).isSome) →
      (dexGo parse tA tB pairs bl none = .error DexErr.NoPoolFound ↔
        ∀ p ∈ pairs, pool_returns parse tA tB p = false ∧
          pool_tracksAbove bl p = false) := by
  intro pairs
  induction pairs with
  | nil =>
    intro bl _
    simp [dexGo]
  | cons p rest ih =>
    intro bl hp
    have hrest : ∀ q ∈ rest, ∀ s, q.price_str = some s → (parse s).isSome :=
      fun q hq => hp q (List.mem_cons_of_mem p hq)
    by_cases hr : pool_returns parse tA tB p = true
    · obtain ⟨v, hv⟩ := dexGo_cons_returns_ok parse tA tB p rest bl none hr
      rw [hv]
      constructor
      · intro h
        exact absurd h (by simp)
      · intro h
        exact absurd hr (by simp [(h p (List.mem_cons_self p rest)).1])
    · have hr2 : pool_returns parse tA tB p = false := by simpa using hr
      by_cases ht : pool_tracksAbove bl p = true
      · have hsome : p.price_str.isSome := by
          simp only [pool_tracksAbove, decide_eq_true_eq] at ht
          exact ht.2.2.1
        obtain ⟨s, hs⟩ := Option.isSome_iff_exists.mp hsome
        rw [dexGo_cons_track parse tA tB p rest bl none s hr2 hs ht]
        obtain ⟨v, hv⟩ := dexGo_ok_of_candidate parse tA tB rest p.liquidityUsd s hrest
          (hp p (List.mem_cons_self p rest) s hs)
        rw [hv]
        constructor
        · intro h
          exact absurd h (by simp)
        · intro h
          exact absurd ht (by simp [(h p (List.mem_cons_self p rest)).2])
      · have ht2 : pool_tracksAbove bl p = false := by simpa using ht
        rw [dexGo_cons_no_step parse tA tB p rest bl none hr2 ht2, ih bl hrest]
        constructor
        · intro h q hq
          rcases List.mem_cons.mp hq with rfl | hq2
          · exact ⟨hr2, ht2⟩
          · exact h q hq2
        · intro h q hq
          exact h q (List.mem_cons_of_mem p hq)

/-- A neither-orientation pool whose price parses (liquidity 5). -/
def poolParseable : DexPool :=
  { baseAddress := "0xg", quoteAddress := "0xh", priceNative := some "1.5",
    price := none, liquidityUsd := 5 }

/-- A higher-liquidity pool whose price string does not parse (liquidity 10). -/
def poolJunk : DexPool :=
  { baseAddress := "0xi", quoteAddress := "0xj", priceNative := some "junk",
    price := none, liquidityUsd := 10 }

/-- C3, counterexample: the claim "fails with NoPoolFound iff no scanned pool
yields any parseable price at all" is false.  `poolParseable` is a
neither-orientation pool with a parseable price string, yet the call fails
with NoPoolFound, because the higher-liquidity `poolJunk` replaces it as the
retained fallback candidate and its own price string does not parse. -/
theorem dex_no_pool_found_cex :
    get_pair_mid_from_dexscreener parseDecimal "0xa" "0xb" [poolParseable, poolJunk] =
      .error DexErr.NoPoolFound ∧
    poolParseable.price_str = some "1.5" ∧
    (parseDecimal "1.5").isSome = true ∧
    pool_returns parseDecimal "0xa" "0xb" poolParseable = false ∧
    pool_tracks poolParseable = true := by
  refine ⟨by decide, by decide, by decide, by decide, by decide⟩

/-- C3, amended: under the assumption that every present price string parses,
the call fails with NoPoolFound iff no scanned pool triggers an
orientation-matched return and no scanned pool is eligible to seed the
liquidity-ranked fallback candidate.  (Without that assumption the
counterexample applies: a parseable neither-orientation pool can be shadowed
by a higher-liquidity pool with an unparseable price string.) -/
theorem dex_no_pool_found_iff (parse : String → Option ℚ) (tA tB : String)
    (pairs : List DexPool)
    (hp : ∀ p ∈ pairs, ∀ s, p.price_str = some s → (parse s).isSome) :
    get_pair_mid_from_dexscreener parse tA tB pairs = .error DexErr.NoPoolFound ↔
      ∀ p ∈ pairs, pool_returns parse tA tB p = false ∧ pool_tracks p = false := by
  have h := dexGo_error_iff parse tA tB pairs (-1) hp
  simpa [get_pair_mid_from_dexscreener, pool_tracks] using h

theorem dex_no_pool_found_iff_witness :
    get_pair_mid_from_dexscreener parseDecimal "0xa" "0xb" [poolParseable] ≠
      .error DexErr.NoPoolFound :=
  fun h =>
    absurd
      (((dex_no_pool_found_iff parseDecimal "0xa" "0xb" [poolParseable]
        (by decide)).mp h) poolParseable (by decide)).2
      (by decide)

/-- Every `.ok` value of the scan is positive provided every parseable pool
price is positive and the retained candidate (if any) parses positive. -/
lemma dexGo_pos (parse : String → Option ℚ) (tA tB : String) :
    ∀ (pairs : List DexPool) (bl : ℚ) (bp : Option String),
      (∀ p ∈ pairs, ∀ s, p.price_str = some s → ∀ v, parse s = some v → 0 < v) →
      (∀ s, bp = some s → ∀ v, parse s = some v → 0 < v) →
      ∀ v, dexGo parse tA tB pairs bl bp = .ok v → 0 < v := by
  intro pairs
  induction pairs with
  | nil =>
    intro bl bp _ hbp v hok
    cases bp with
    | none => simp [dexGo] at hok
    | some s =>
      cases hps : parse s with
      | none => simp [dexGo, hps] at hok
      | some w =>
        simp only [dexGo, hps, Except.ok.injEq] at hok
        exact hbp s rfl v (by rw [hps, hok])
  | cons p rest ih =>
    intro bl bp hp hbp v hok
    have hself := hp p (List.mem_cons_self p rest)
    have hrest : ∀ q ∈ rest, ∀ s, q.price_str = some s → ∀ w, parse s = some w → 0 < w :=
      fun q hq => hp q (List.mem_cons_of_mem p hq)
    by_cases hr : pool_returns parse tA tB p = true
    · simp only [pool_returns] at hr
      by_cases hskip : pyLower p.baseAddress = "" ∨ pyLower p.quoteAddress = ""
      · rw [if_pos hskip] at hr
        simp at hr
      · rw [if_neg hskip] at hr
        cases hps : p.price_str with
        | none => simp only [hps] at hr; simp at hr
        | some s =>
          simp only [hps] at hr
          cases hpv : parse s with
          | none => simp only [hpv] at hr; simp at hr
          | some w =>
            have hwpos : 0 < w := hself s hps w hpv
            simp only [hpv, decide_eq_true_eq] at hr
            by_cases hex : pyLower p.baseAddress = pyLower tA ∧
                pyLower p.quoteAddress = pyLower tB
            · rw [dexGo_cons_exact parse tA tB p rest bl bp s w hskip hps hpv hex] at hok
              cases hok
              exact hwpos
            · rcases hr with hex2 | ⟨hi1, hi2, hnz⟩
              · exact absurd hex2 hex
              · rw [dexGo_cons_inverted parse tA tB p rest bl bp s w hskip hps hpv hex
                  ⟨hi1, hi2⟩ hnz] at hok
                cases hok
                exact one_div_pos.mpr hwpos
    · have hr2 : pool_returns parse tA tB p = false := by simpa using hr
      by_cases ht : pool_tracksAbove bl p = true
      · have hsome : p.price_str.isSome := by
          simp only [pool_tracksAbove, decide_eq_true_eq] at ht
          exact ht.2.2.1
        obtain ⟨s, hs⟩ := Option.isSome_iff_exists.mp hsome
        rw [dexGo_cons_track parse tA tB p rest bl bp s hr2 hs ht] at hok
        refine ih p.liquidityUsd (some s) hrest ?_ v hok
        intro s2 hs2 w hw
        cases hs2
        exact hself s hs w hw
      · rw [dexGo_cons_no_step parse tA tB p rest bl bp hr2 (by simpa using ht)] at hok
        exact ih bl bp hrest hbp v hok

/-- An exact-orientation pool whose price string is "0" (liquidity 3). -/
def poolZero : DexPool :=
  { baseAddress := "0xa", quoteAddress := "0xb", priceNative := some "0",
    price := none, liquidityUsd := 3 }

/-- C4, counterexample: the claim "every successful result is strictly
positive for any pool data" is false.  With an exact-orientation pool whose
price field is "0" the call succeeds with 0, which is not positive: the code
never checks the sign of an exact-orientation or fallback price. -/
theorem dex_positive_cex :
    get_pair_mid_from_dexscreener parseDecimal "0xa" "0xb" [poolZero] = .ok 0 ∧
    ¬(0 : ℚ) < 0 := by
  refine ⟨by decide, by decide⟩

/-- C4, amended: every successful result of the pool scan is positive
provided every parseable pool price is positive — the counterexample shows
the restriction to positive pool data is necessary, and positivity is then
preserved along all three result paths (exact price, reciprocal, fallback
candidate). -/
theorem dex_positive_under_positive_prices (parse : String → Option ℚ) (tA tB : String)
    (pairs : List DexPool)
    (hp : ∀ p ∈ pairs, ∀ s, p.price_str = some s → ∀ v, parse s = some v → 0 < v) :
    ∀ v, get_pair_mid_from_dexscreener parse tA tB pairs = .ok v → 0 < v := by
  intro v hok
  refine dexGo_pos parse tA tB pairs (-1) none hp ?_ v hok
  intro s hs
  cases hs

/-- A neither-orientation pool with the positive price 2 (liquidity 4). -/
def poolTwo : DexPool :=
  { baseAddress := "0xg", quoteAddress := "0xh", priceNative := some "2",
    price := none, liquidityUsd := 4 }

theorem dex_positive_under_positive_prices_witness :
    get_pair_mid_from_dexscreener parseDecimal "0xa" "0xb" [poolTwo] = .ok 2 ∧
    (0 : ℚ) < 2 :=
  ⟨by decide,
    dex_positive_under_positive_prices parseDecimal "0xa" "0xb" [poolTwo]
      (by decide) 2 (by decide)⟩

/-- A prefix of non-returning pools only advances the fallback state. -/
lemma dexGo_append_no_returns (parse : String → Option ℚ) (tA tB : String) :
    ∀ (pre l : List DexPool) (bl : ℚ) (bp : Option String),
      (∀ q ∈ pre, pool_returns parse tA tB q = false) →
      ∃ bl2 bp2, dexGo parse tA tB (pre ++ l) bl bp = dexGo parse tA tB l bl2 bp2 := by
  intro pre
  induction pre with
  | nil =>
    intro l bl bp _
    exact ⟨bl, bp, rfl⟩
  | cons q pre2 ih =>
    intro l bl bp h
    have hq := h q (List.mem_cons_self q pre2)
    have hrest : ∀ w ∈ pre2, pool_returns parse tA tB w = false :=
      fun w hw => h w (List.mem_cons_of_mem q hw)
    by_cases ht : pool_tracksAbove bl q = true
    · have hsome : q.price_str.isSome := by
        simp only [pool_tracksAbove, decide_eq_true_eq] at ht
        exact ht.2.2.1
      obtain ⟨s, hs⟩ := Option.isSome_iff_exists.mp hsome
      rw [List.cons_append, dexGo_cons_track parse tA tB q (pre2 ++ l) bl bp s hq hs ht]
      exact ih l q.liquidityUsd (some s) hrest
    · rw [List.cons_append,
        dexGo_cons_no_step parse tA tB q (pre2 ++ l) bl bp hq (by simpa using ht)]
      exact ih l bl bp hrest

/-- C7: a reached pool in the inverted orientation (pool base = tokenB, pool
quote = tokenA after lowering, with the two tokens distinct) with a nonzero
parseable price `v` makes the call return the reciprocal `1 / v`; with a zero
parseable price the pool never produces an inverted-orientation return — it
only (possibly) updates the fallback candidate and the scan moves on, so no
division by zero is ever performed. -/
theorem dex_inverted_reciprocal (parse : String → Option ℚ) (tA tB : String)
    (p : DexPool) (s : String)
    (hb : pyLower p.baseAddress = pyLower tB) (hq : pyLower p.quoteAddress = pyLower tA)
    (hab : pyLower tA ≠ pyLower tB)
    (hbne : pyLower p.baseAddress ≠ "") (hqne : pyLower p.quoteAddress ≠ "")
    (hs : p.price_str = some s) :
    (∀ v, parse s = some v → v ≠ 0 →
      ∀ pre post, (∀ q ∈ pre, pool_returns parse tA tB q = false) →
        get_pair_mid_from_dexscreener parse tA tB (pre ++ p :: post) = .ok (1 / v)) ∧
    (parse s = some 0 → ∀ bl bp post,
      dexGo parse tA tB (p :: post) bl bp =
        if bl < p.liquidityUsd then dexGo parse tA tB post p.liquidityUsd (some s)
        else dexGo parse tA tB post bl bp) := by
  have hskip : ¬(pyLower p.baseAddress = "" ∨ pyLower p.quoteAddress = "") :=
    not_or.mpr ⟨hbne, hqne⟩
  have hnex : ¬(pyLower p.baseAddress = pyLower tA ∧ pyLower p.quoteAddress = pyLower tB) := by
    intro hex
    exact hab (hex.1.symm.trans hb)
  constructor
  · intro v hv hnz pre post hpre
    obtain ⟨bl2, bp2, heq⟩ :=
      dexGo_append_no_returns parse tA tB pre (p :: post) (-1) none hpre
    unfold get_pair_mid_from_dexscreener
    rw [heq]
    exact dexGo_cons_inverted parse tA tB p post bl2 bp2 s v hskip hs hv hnex ⟨hb, hq⟩ hnz
  · intro hv0 bl bp post
    have hret : pool_returns parse tA tB p = false := by
      simp only [pool_returns, hs, hv0]
      rw [if_neg hskip]
      simp only [decide_eq_false_iff_not]
      rintro (hex | ⟨hi1, hi2, hnz⟩)
      · exact hnex hex
      · exact hnz rfl
    by_cases hliq : bl < p.liquidityUsd
    · rw [if_pos hliq, dexGo_cons_track parse tA tB p post bl bp s hret hs
        (by simp [pool_tracksAbove, hbne, hqne, hs, hliq])]
    · rw [if_neg hliq, dexGo_cons_no_step parse tA tB p post bl bp hret
        (by simp [pool_tracksAbove, hliq])]

/-- An inverted-orientation pool (base "0xb", quote "0xa") with price 2. -/
def poolInv : DexPool :=
  { baseAddress := "0xB", quoteAddress := "0xA", priceNative := some "2",
    price := none, liquidityUsd := 3 }

theorem dex_inverted_reciprocal_witness :
    get_pair_mid_from_dexscreener parseDecimal "0xa" "0xb" [poolInv] = .ok (1 / 2) := by
  have h :=
    (dex_inverted_reciprocal parseDecimal "0xa" "0xb" poolInv "2" (by decide) (by decide)
      (by decide) (by decide) (by decide) (by decide)).1 2 (by decide) (by decide)
      [] [poolInv].tail (by decide)
  simpa using h

/-- When every endpoint of one attempt fails (exception or empty result), the
attempt scans the whole endpoint list and ends with the threaded last error. -/
lemma attempt_endpoints_all_fail (tryEp : Nat → String → Except String (List (String × RsEntry)))
    (a : Nat) :
    ∀ (eps : List String) (le : Option String),
      (∀ ep ∈ eps, ∀ m, tryEp a ep = .ok m → m = []) →
      attempt_endpoints tryEp a eps le =
        (eps.map (FetchEvent.tryE a), .error (lastErrScan tryEp a eps le)) := by
  intro eps
  induction eps with
  | nil =>
    intro le _
    rfl
  | cons ep rest ih =>
    intro le h
    have hrest : ∀ w ∈ rest, ∀ m, tryEp a w = .ok m → m = [] :=
      fun w hw => h w (List.mem_cons_of_mem ep hw)
    cases htry : tryEp a ep with
    | error e =>
      simp only [attempt_endpoints, htry]
      rw [ih (some e) hrest]
      simp [lastErrScan, htry]
    | ok m =>
      have hm : m = [] := h ep (List.mem_cons_self ep rest) m htry
      subst hm
      simp only [attempt_endpoints, htry, List.isEmpty_nil, if_true]
      rw [ih (some ("No data from " ++ ep)) hrest]
      simp [lastErrScan, htry]

/-- The retry loop under total failure: every remaining attempt scans all
endpoints, sleeps `base_delay * 2 ^ attempt`, and the final error is the
threaded last error of all scans. -/
lemma fetch_go_all_fail (tryEp : Nat → String → Except String (List (String × RsEntry)))
    (eps : List String) (base_delay : ℚ)
    (h : ∀ a, ∀ ep ∈ eps, ∀ m, tryEp a ep = .ok m → m = []) :
    ∀ (rem a : Nat) (le : Option String),
      fetch_go tryEp eps base_delay a rem le =
        ((List.range' a rem).bind
          (fun k => eps.map (FetchEvent.tryE k) ++ [FetchEvent.sleepE (base_delay * 2 ^ k)]),
         .error ((List.range' a rem).foldl (fun acc k => lastErrScan tryEp k eps acc) le)) := by
  intro rem
  induction rem with
  | zero =>
    intro a le
    rfl
  | succ rem ih =>
    intro a le
    simp only [fetch_go]
    rw [attempt_endpoints_all_fail tryEp a eps le (h a)]
    dsimp only
    rw [ih (a + 1)]
    rw [List.range'_succ]
    simp [List.cons_bind, List.append_assoc]

/-- C5: when every endpoint fails to yield usable data on every attempt,
`fetch_redstone_prices` performs exactly `retries` attempts, each scanning
the full endpoint list; the sleep separating attempt `a` from attempt `a+1`
is `base_delay * 2 ^ a` seconds (so the inter-attempt delays are baseDelay,
2·baseDelay, 4·baseDelay, …; as the trace shows, the code also performs one
final such sleep after the last attempt, just before raising); the call then
fails with ExhaustedRetries carrying the last observed error, i.e. the error
threaded through every endpoint scan. -/
theorem fetch_retry_trace (tryEp : Nat → String → Except String (List (String × RsEntry)))
    (eps : List String) (retries : Nat) (base_delay : ℚ)
    (h : ∀ a, ∀ ep ∈ eps, ∀ m, tryEp a ep = .ok m → m = []) :
    fetch_redstone_prices tryEp eps retries base_delay =
      ((List.range retries).bind
        (fun a => eps.map (FetchEvent.tryE a) ++ [FetchEvent.sleepE (base_delay * 2 ^ a)]),
       .error ((List.range retries).foldl (fun acc a => lastErrScan tryEp a eps acc) none)) := by
  unfold fetch_redstone_prices
  rw [List.range_eq_range']
  exact fetch_go_all_fail tryEp eps base_delay h retries 0 none

/-- A RedStone endpoint model that always raises. -/
def tryEpFail (a : Nat) (ep : String) : Except String (List (String × RsEntry)) :=
  .error ("boom " ++ ep)

theorem fetch_retry_trace_witness :
    fetch_redstone_prices tryEpFail ["e1", "e2"] 2 1 =
      ((List.range 2).bind
        (fun a => ["e1", "e2"].map (FetchEvent.tryE a) ++
          [FetchEvent.sleepE ((1 : ℚ) * 2 ^ a)]),
       .error ((List.range 2).foldl (fun acc a => lastErrScan tryEpFail a ["e1", "e2"] acc)
         none)) :=
  fetch_retry_trace tryEpFail ["e1", "e2"] 2 1
    (by
      intro a ep _ m hm
      exact absurd hm (by simp [tryEpFail]))

/-- Inserting a key makes it present (overwriting in place or appending). -/
lemma dictInsert_lookup_self (m : List (String × RsEntry)) (k : String) (v : RsEntry) :
    (dictInsert m k v).lookup k = some v := by
  unfold dictInsert
  by_cases h : (m.lookup k).isSome
  · rw [if_pos h]
    have haux : ∀ m2 : List (String × RsEntry), (m2.lookup k).isSome = true →
        List.lookup k (List.map (fun kv => if kv.1 = k then (k, v) else kv) m2) = some v := by
      intro m2
      induction m2 with
      | nil =>
        intro hh
        simp [List.lookup] at hh
      | cons kv rest ih =>
        intro hh
        by_cases hk : kv.1 = k
        · rw [List.map_cons, if_pos hk]
          simp [List.lookup]
        · rw [List.map_cons, if_neg hk]
          have hne : (k == kv.1) = false := beq_eq_false_iff_ne.mpr (Ne.symm hk)
          simp only [List.lookup, hne] at hh ⊢
          exact ih hh
    exact haux m h
  · rw [if_neg h]
    have hnone : m.lookup k = none := Option.not_isSome_iff_eq_none.mp h
    have haux : ∀ m2 : List (String × RsEntry), m2.lookup k = none →
        List.lookup k (m2 ++ [(k, v)]) = some v := by
      intro m2
      induction m2 with
      | nil =>
        intro _
        simp [List.lookup]
      | cons kv rest ih =>
        intro hh
        cases hk : (k == kv.1) with
        | true =>
          simp only [List.lookup, hk] at hh
          cases hh
        | false =>
          simp only [List.cons_append, List.lookup, hk] at hh ⊢
          exact ih hh
    exact haux m hnone

/-- Insertion never removes a present key. -/
lemma dictInsert_lookup_mono (m : List (String × RsEntry)) (k : String) (v : RsEntry)
    (k2 : String) (h : (m.lookup k2).isSome) :
    ((dictInsert m k v).lookup k2).isSome := by
  unfold dictInsert
  by_cases hins : (m.lookup k).isSome
  · rw [if_pos hins]
    have haux : ∀ m2 : List (String × RsEntry), (m2.lookup k2).isSome = true →
        ((List.map (fun kv => if kv.1 = k then (k, v) else kv) m2).lookup k2).isSome = true := by
      intro m2
      induction m2 with
      | nil =>
        intro hh
        simp [List.lookup] at hh
      | cons kv rest ih =>
        intro hh
        by_cases hk : kv.1 = k
        · rw [List.map_cons, if_pos hk]
          cases hk2 : (k2 == k) with
          | true => simp [List.lookup, hk2]
          | false =>
            have hk2b : (k2 == kv.1) = false := by rw [hk]; exact hk2
            simp only [List.lookup, hk2b] at hh
            simp only [List.lookup, hk2]
            exact ih hh
        · rw [List.map_cons, if_neg hk]
          cases hk2 : (k2 == kv.1) with
          | true => simp [List.lookup, hk2]
          | false =>
            simp only [List.lookup, hk2] at hh
            simp only [List.lookup, hk2]
            exact ih hh
    exact haux m h
  · rw [if_neg hins]
    have haux : ∀ m2 : List (String × RsEntry), (m2.lookup k2).isSome = true →
        ((m2 ++ [(k, v)]).lookup k2).isSome = true := by
      intro m2
      induction m2 with
      | nil =>
        intro hh
        simp [List.lookup] at hh
      | cons kv rest ih =>
        intro hh
        cases hk2 : (k2 == kv.1) with
        | true => simp [List.lookup, hk2]
        | false =>
          simp only [List.lookup, hk2] at hh
          simp only [List.cons_append, List.lookup, hk2]
          exact ih hh
    exact haux m h

/-- One batch step never removes a present key. -/
lemma batch_step_lookup_mono (out : List (String × RsEntry)) (item : RsItem) (k : String)
    (h : (out.lookup k).isSome) : ((batch_step out item).lookup k).isSome := by
  cases hs : item.symbol with
  | none => simpa [batch_step, hs] using h
  | some s =>
    cases hv : item.value with
    | none => simpa [batch_step, hs, hv] using h
    | some w =>
      cases w with
      | none => simpa [batch_step, hs, hv] using h
      | some v =>
        simp only [batch_step, hs, hv]
        exact dictInsert_lookup_mono out (pyUpper s) _ k h

/-- The batch fold never removes a present key. -/
lemma batch_fold_lookup_mono :
    ∀ (items : List RsItem) (out : List (String × RsEntry)) (k : String),
      (out.lookup k).isSome → ((items.foldl batch_step out).lookup k).isSome := by
  intro items
  induction items with
  | nil =>
    intro out k h
    exact h
  | cons item rest ih =>
    intro out k h
    exact ih (batch_step out item) k (batch_step_lookup_mono out item k h)

/-- Every well-formed item of the normalized batch ends up present in the
accumulated mapping under its uppercased symbol. -/
lemma batch_collect_lookup (items : List RsItem) :
    ∀ item ∈ items, ∀ s v, item.symbol = some s → item.value = some (some v) →
      ((batch_collect items).lookup (pyUpper s)).isSome := by
  have haux : ∀ (its : List RsItem) (out : List (String × RsEntry)),
      ∀ item ∈ its, ∀ s v, item.symbol = some s → item.value = some (some v) →
        ((its.foldl batch_step out).lookup (pyUpper s)).isSome := by
    intro its
    induction its with
    | nil =>
      intro out item hmem
      exact absurd hmem (List.not_mem_nil item)
    | cons it rest ih =>
      intro out item hmem s v hs hv
      rcases List.mem_cons.mp hmem with rfl | hmem2
      · have hstep : ((batch_step out item).lookup (pyUpper s)).isSome := by
          simp only [batch_step, hs, hv]
          rw [dictInsert_lookup_self]
          rfl
        exact batch_fold_lookup_mono rest (batch_step out item) (pyUpper s) hstep
      · exact ih (batch_step out it) item hmem2 s v hs hv
  intro item hmem s v hs hv
  exact haux items [] item hmem s v hs hv

/-- C10: on the batch path (non-empty wanted list, HTTP 200, normalizable
payload, at least one well-formed record) the endpoint helper returns the
batch accumulation as is, and that mapping contains an entry for every
well-formed record of the response — with no filtering against the requested
symbol list; symbols that were never requested are present all the same. -/
theorem try_endpoint_batch_unfiltered (batch : Nat × RsPayload)
    (perSym : String → Nat × RsPayload) (symbols : List String) (items : List RsItem)
    (hw : (wantedOf symbols).isEmpty = false)
    (hst : batch.1 = 200)
    (hn : normalize_rs_payload batch.2 = .ok items)
    (hne : (batch_collect items).isEmpty = false) :
    try_redstone_endpoint batch perSym symbols = .ok (batch_collect items) ∧
    ∀ item ∈ items, ∀ s v, item.symbol = some s → item.value = some (some v) →
      ((batch_collect items).lookup (pyUpper s)).isSome := by
  constructor
  · simp only [try_redstone_endpoint, hw, hst, hn, hne, Bool.false_eq_true, if_false,
      if_true]
  · intro item hmem s v hs hv
    exact batch_collect_lookup items item hmem s v hs hv

/-- A batch response carrying a requested record (btc) and an unrequested
one (eth). -/
def batchItemsW : List RsItem :=
  [{ symbol := some "btc", value := some (some 65000), timestamp := some 123,
     provider := some "x" },
   { symbol := some "eth", value := some (some 3000), timestamp := none,
     provider := none }]

theorem try_endpoint_batch_unfiltered_witness :
    try_redstone_endpoint (200, RsPayload.plist batchItemsW)
        (fun _ => (500, RsPayload.ptext "down")) ["btc"] =
      .ok (batch_collect batchItemsW) ∧
    ((batch_collect batchItemsW).lookup (pyUpper "eth")).isSome = true ∧
    pyUpper "eth" ∉ wantedOf ["btc"] :=
  ⟨(try_endpoint_batch_unfiltered (200, RsPayload.plist batchItemsW)
      (fun _ => (500, RsPayload.ptext "down")) ["btc"] batchItemsW
      (by decide) (by decide) (by decide) (by decide)).1,
   (try_endpoint_batch_unfiltered (200, RsPayload.plist batchItemsW)
      (fun _ => (500, RsPayload.ptext "down")) ["btc"] batchItemsW
      (by decide) (by decide) (by decide) (by decide)).2
     { symbol := some "eth", value := some (some 3000), timestamp := none,
       provider := none } (by decide) "eth" 3000 (by decide) (by decide),
   by decide⟩
